import Mathlib

/-!
Verification of the traffic-simulation core: the event `Scheduler`
(`sim/src/scheduler.rs`) and the `DrivingSimState` step logic
(`sim/src/mechanics/driving.rs`), shallowly embedded in Lean.

Simulated times are modelled as `Nat` (seconds), distances as `Int`.
Rust panics are modelled by `Option`-valued operations returning `none`.
Collaborator types that live outside the two embedded files
(paths, routers, car records, queues, parking) are modelled from the
specification's data model, and collaborator *behaviour* (intersection
admission, router end-action resolution, queue admission indices) is
passed in as explicit function parameters, mirroring how the Rust code
receives `&mut` collaborators.
-/

namespace AbStreet

/-- Simulated time, in whole seconds (`geom::Time` / `geom::Duration`). -/
abbrev Time := Nat

/-- Distance along a traversable (`geom::Distance`). -/
abbrev Dist := Int

/-- `Time::START_OF_DAY`. -/
def START_OF_DAY : Time := 0

/-- Modelled from the spec: a `Traversable` is a lane or a turn — the atomic
segment a car occupies. Identifiers are modelled as `Nat`. -/
inductive Traversable where
  | lane (l : Nat)
  | turn (t : Nat)
deriving DecidableEq, Repr

/-- Modelled from the spec: a `map_model::Path` carried inside spawn commands;
modelled as an opaque token. -/
abbrev Path := Nat

/-- `Path::dummy()`, the placeholder swapped in by `before_savestate`. -/
def Path.dummy : Path := 0

/-- Modelled from the spec: the router is a path cursor that reports its
`head()` traversable, whether the current step is the `last_step`, and the
`next()` traversable. It carries the serialized `Path` swapped out around
savestates as an opaque token. -/
structure RouterModel where
  steps : List Traversable
  path : Path
deriving DecidableEq, Repr

namespace RouterModel

/-- `router.head()`: the current traversable. -/
def head (r : RouterModel) : Option Traversable := r.steps.head?

/-- `router.last_step()`: true when the current step is the final one. -/
def last_step (r : RouterModel) : Bool := r.steps.length == 1

/-- `router.next()`: the traversable after the current one. -/
def next (r : RouterModel) : Option Traversable := r.steps.tail.head?

/-- `router.replace_path_for_serialization(p)`: swap the stored path with `p`,
returning the old one. -/
def replace_path_for_serialization (r : RouterModel) (p : Path) :
    RouterModel × Path :=
  ({ r with path := p }, r.path)

end RouterModel

/-- Modelled from the spec: the immutable vehicle attributes the embedded code
reads — `id`, `length`, and the optional `owner` building. -/
structure Vehicle where
  id : Nat
  length : Dist
  owner : Option Nat
deriving DecidableEq, Repr

/-- Modelled from the spec: the fields of `CreateCar` read by the scheduler
(vehicle id for the command key, the path request `req`, the router holding a
path) and by `start_car_on_lane` (start distance, vehicle length, whether the
car originates from a parked spot). -/
structure CreateCar where
  vehicle : Vehicle
  req : Nat
  router : RouterModel
  start_dist : Dist
  maybeParkedCar : Bool
deriving DecidableEq, Repr

/-- Modelled from the spec: the fields of `CreatePedestrian` read by the
scheduler (pedestrian id for the command key, the request `req`, the carried
`path`). -/
structure CreatePedestrian where
  pedId : Nat
  req : Nat
  path : Path
deriving DecidableEq, Repr

/-- `Command` (`scheduler.rs`): the tagged variant of schedulable work.
External id types (`TripID`, `CarID`, `PedestrianID`, `IntersectionID`,
`BusRouteID`, `pandemic::Cmd`, `TripSpec`, `Duration`) are modelled as `Nat`. -/
inductive Command where
  | SpawnCar (create : CreateCar) (retryIfNoRoom : Bool)
  | SpawnPed (create : CreatePedestrian)
  | StartTrip (trip : Nat) (tripSpec : Nat)
  | UpdateCar (car : Nat)
  | UpdateLaggyHead (car : Nat)
  | UpdatePed (ped : Nat)
  | UpdateIntersection (i : Nat)
  | Callback (d : Nat)
  | Pandemic (p : Nat)
  | FinishRemoteTrip (trip : Nat)
  | StartBus (route : Nat) (t : Time)
deriving DecidableEq, Repr

/-- `CommandType` (`scheduler.rs`): the dedup identity of a command. Only one
`Command` per `CommandType` may exist at a time. -/
inductive CommandType where
  | StartTrip (trip : Nat)
  | Car (car : Nat)
  | CarLaggyHead (car : Nat)
  | Ped (ped : Nat)
  | Intersection (i : Nat)
  | Callback
  | Pandemic (p : Nat)
  | FinishRemoteTrip (trip : Nat)
  | StartBus (route : Nat) (t : Time)
deriving DecidableEq, Repr

namespace Command

/-- `Command::to_type` (`scheduler.rs`): both `SpawnCar(c,_)` and
`UpdateCar(c)` map to key `Car(c)`. -/
def toType : Command → CommandType
  | SpawnCar create _ => .Car create.vehicle.id
  | SpawnPed create => .Ped create.pedId
  | StartTrip id _ => .StartTrip id
  | UpdateCar id => .Car id
  | UpdateLaggyHead id => .CarLaggyHead id
  | UpdatePed id => .Ped id
  | UpdateIntersection id => .Intersection id
  | Callback _ => .Callback
  | Pandemic p => .Pandemic p
  | FinishRemoteTrip t => .FinishRemoteTrip t
  | StartBus r t => .StartBus r t

end Command

namespace CommandType

/-- Variant rank of the derived `Ord` on `CommandType` (declaration order). -/
def rank : CommandType → Nat
  | StartTrip _ => 0
  | Car _ => 1
  | CarLaggyHead _ => 2
  | Ped _ => 3
  | Intersection _ => 4
  | Callback => 5
  | Pandemic _ => 6
  | FinishRemoteTrip _ => 7
  | StartBus _ _ => 8

/-- Payload of a `CommandType`, for the lexicographic part of the derived
`Ord` (a pair; variants with one id use 0 as second component). -/
def payload : CommandType → Nat × Nat
  | StartTrip t => (t, 0)
  | Car c => (c, 0)
  | CarLaggyHead c => (c, 0)
  | Ped p => (p, 0)
  | Intersection i => (i, 0)
  | Callback => (0, 0)
  | Pandemic p => (p, 0)
  | FinishRemoteTrip t => (t, 0)
  | StartBus r t => (r, t)

/-- The derived total order on `CommandType`: variant order, then payload
lexicographically. -/
def ctLt (a b : CommandType) : Bool :=
  if a.rank = b.rank then
    if a.payload.1 = b.payload.1 then a.payload.2 < b.payload.2
    else a.payload.1 < b.payload.1
  else a.rank < b.rank

end CommandType

/-- `Item` (`scheduler.rs`): a heap entry `(time, cmd_type)`. -/
structure Item where
  time : Time
  cmd_type : CommandType
deriving DecidableEq, Repr

/-- `Item`'s `Ord` (`scheduler.rs`): `a` leaves the heap before `b` iff
`a.time < b.time`, or the times are equal and `a.cmd_type` is the *greater*
key (the comparison on times is reversed to make `BinaryHeap` a min-heap on
time; the tie-break then compares `cmd_type` un-reversed). -/
def popsBefore (a b : Item) : Bool :=
  if a.time = b.time then CommandType.ctLt b.cmd_type a.cmd_type
  else a.time < b.time

/-- `BinaryHeap::pop` on the modelled heap contents: removes and returns the
item that the `Item` ordering pops first (`none` on an empty heap). -/
def popBest : List Item → Option (Item × List Item)
  | [] => none
  | x :: xs =>
    match popBest xs with
    | none => some (x, [])
    | some (y, ys) => if popsBefore y x then some (y, x :: ys) else some (x, xs)

section AList

variable {α β : Type} [DecidableEq α]

/-- `HashMap::get` / `Entry` lookup on the modelled association list. -/
def alookup (k : α) : List (α × β) → Option β
  | [] => none
  | (k', v) :: rest => if k' = k then some v else alookup k rest

/-- `HashMap::insert` on the modelled association list: replace in place if
the key is present, else append. -/
def ainsert (k : α) (v : β) : List (α × β) → List (α × β)
  | [] => [(k, v)]
  | (k', v') :: rest =>
    if k' = k then (k, v) :: rest else (k', v') :: ainsert k v rest

/-- `HashMap::remove` on the modelled association list. -/
def aremove (k : α) : List (α × β) → List (α × β)
  | [] => []
  | (k', v') :: rest => if k' = k then rest else (k', v') :: aremove k rest

end AList

/-- `Scheduler` (`scheduler.rs`). The heap is modelled by its multiset of
items as a list, popped through `popBest`; `queued_commands` is modelled as an
association list (the `HashMap` has no observable order; iteration order of
the model is the list order). The diagnostic `delta_times` histogram and
`cmd_type_counts` counter are non-authoritative and not serialized, and are
omitted. -/
structure Scheduler where
  items : List Item
  queued_commands : List (CommandType × Command × Time)
  latest_time : Time
  last_time : Time
deriving DecidableEq, Repr

namespace Scheduler

/-- `Scheduler::new`. -/
def new : Scheduler :=
  { items := []
    queued_commands := []
    latest_time := START_OF_DAY
    last_time := START_OF_DAY }

/-- `Scheduler::push`. Panics (`none`) when `time < latest_time` or when a
command with the same key is already queued. -/
def push (s : Scheduler) (time : Time) (cmd : Command) : Option Scheduler :=
  if time < s.latest_time then none
  else
    let cmd_type := cmd.toType
    match alookup cmd_type s.queued_commands with
    | some _ => none
    | none =>
      some { s with
        last_time := max s.last_time time
        queued_commands := ainsert cmd_type (cmd, time) s.queued_commands
        items := ⟨time, cmd_type⟩ :: s.items }

/-- `Scheduler::update`. Panics (`none`) when `new_time < latest_time` or when
a queued command under the same key differs from `cmd` (the `assert_eq`). It
is fine if no previous command is scheduled. -/
def update (s : Scheduler) (new_time : Time) (cmd : Command) : Option Scheduler :=
  if new_time < s.latest_time then none
  else
    let cmd_type := cmd.toType
    match alookup cmd_type s.queued_commands with
    | some (existing_cmd, _) =>
      if cmd = existing_cmd then
        some { s with
          last_time := max s.last_time new_time
          queued_commands := ainsert cmd_type (cmd, new_time) s.queued_commands
          items := ⟨new_time, cmd_type⟩ :: s.items }
      else none
    | none =>
      some { s with
        last_time := max s.last_time new_time
        queued_commands := ainsert cmd_type (cmd, new_time) s.queued_commands
        items := ⟨new_time, cmd_type⟩ :: s.items }

/-- `Scheduler::cancel`: remove the key from the table; heap entries are left
to be filtered at pop time. -/
def cancel (s : Scheduler) (cmd : Command) : Scheduler :=
  { s with queued_commands := aremove cmd.toType s.queued_commands }

/-- `Scheduler::peek_next_time`. -/
def peek_next_time (s : Scheduler) : Option Time :=
  (popBest s.items).map (fun p => p.1.time)

/-- `Scheduler::get_last_time`. -/
def get_last_time (s : Scheduler) : Time := s.last_time

/-- `Scheduler::get_next`. The outer `Option` is the `pop().unwrap()`: `none`
means the heap was empty and the call panics. Otherwise the root is popped,
`latest_time` is set to its time, and the table decides between a live command
(removed and returned) and a stale entry (`none` result, table untouched). -/
def get_next (s : Scheduler) : Option (Option Command × Scheduler) :=
  match popBest s.items with
  | none => none
  | some (item, rest) =>
    let s1 : Scheduler := { s with items := rest, latest_time := item.time }
    match alookup item.cmd_type s1.queued_commands with
    | none => some (none, s1)
    | some (cmd, t) =>
      if item.time < t then some (none, s1)
      else some (some cmd,
        { s1 with queued_commands := aremove item.cmd_type s1.queued_commands })

end Scheduler

/-- One entry of the `before_savestate` loop (`scheduler.rs`): a `SpawnCar`
has its router's path swapped for `Path.dummy` (pushing the original onto
`restore`); a `SpawnPed` has its `path` field swapped likewise; every other
command is untouched. -/
def extractEntry : CommandType × Command × Time →
    (CommandType × Command × Time) × List Path
  | (k, .SpawnCar create retry, t) =>
    let pr := create.router.replace_path_for_serialization Path.dummy
    ((k, .SpawnCar { create with router := pr.1 } retry, t), [pr.2])
  | (k, .SpawnPed create, t) =>
    ((k, .SpawnPed { create with path := Path.dummy }, t), [create.path])
  | e => (e, [])

/-- The `before_savestate` iteration over `queued_commands.values_mut()`,
collecting replaced paths in iteration order. -/
def beforeSavestateList : List (CommandType × Command × Time) →
    List (CommandType × Command × Time) × List Path
  | [] => ([], [])
  | e :: rest =>
    let ep := extractEntry e
    let rq := beforeSavestateList rest
    (ep.1 :: rq.1, ep.2 ++ rq.2)

/-- `Vec::pop`: remove and return the *last* element. -/
def vecPop : List Path → Option (Path × List Path)
  | [] => none
  | x :: xs =>
    match vecPop xs with
    | none => some (x, [])
    | some (p, ys) => some (p, x :: ys)

/-- One entry of the `after_savestate` loop: a `SpawnCar` or `SpawnPed` takes
`restore.pop().unwrap()` as its path (`none` models the `unwrap` panic on an
exhausted vector); other commands consume nothing. -/
def restoreEntry : CommandType × Command × Time → List Path →
    Option ((CommandType × Command × Time) × List Path)
  | (k, .SpawnCar create retry, t), r =>
    match vecPop r with
    | none => none
    | some (p, r') =>
      let pr := create.router.replace_path_for_serialization p
      some ((k, .SpawnCar { create with router := pr.1 } retry, t), r')
  | (k, .SpawnPed create, t), r =>
    match vecPop r with
    | none => none
    | some (p, r') => some ((k, .SpawnPed { create with path := p }, t), r')
  | e, r => some (e, r)

/-- The `after_savestate` iteration over `queued_commands.values_mut()`,
threading the (already reversed) restore vector. -/
def afterSavestateList : List (CommandType × Command × Time) → List Path →
    Option (List (CommandType × Command × Time) × List Path)
  | [], r => some ([], r)
  | e :: rest, r =>
    match restoreEntry e r with
    | none => none
    | some (e', r') =>
      match afterSavestateList rest r' with
      | none => none
      | some (rest', r'') => some (e' :: rest', r'')

namespace Scheduler

/-- `Scheduler::before_savestate`: swap each queued spawn command's carried
path with a placeholder, returning the originals in iteration order. -/
def before_savestate (s : Scheduler) : Scheduler × List Path :=
  let rq := beforeSavestateList s.queued_commands
  ({ s with queued_commands := rq.1 }, rq.2)

/-- `Scheduler::after_savestate`: reverse `restore`, then hand paths back to
the queued spawn commands by popping from the (reversed) vector; finally
`assert!(restore.is_empty())` — `none` models either panic. -/
def after_savestate (s : Scheduler) (restore : List Path) : Option Scheduler :=
  match afterSavestateList s.queued_commands restore.reverse with
  | none => none
  | some (q', leftover) =>
    if leftover = [] then some { s with queued_commands := q' } else none

end Scheduler

/-- One scheduler operation of the driving loop's external interface, for
stating properties of operation sequences. -/
inductive SchedOp where
  | push (t : Time) (cmd : Command)
  | update (t : Time) (cmd : Command)
  | cancel (cmd : Command)
  | getNext

/-- Apply one operation; `get_next` also reports the popped item's time (the
value `latest_time` is set to). `none` propagates the modelled panics. -/
def SchedOp.apply (s : Scheduler) : SchedOp → Option (Scheduler × Option Time)
  | .push t cmd => (s.push t cmd).map (fun s' => (s', none))
  | .update t cmd => (s.update t cmd).map (fun s' => (s', none))
  | .cancel cmd => some (s.cancel cmd, none)
  | .getNext => s.get_next.map (fun rs => (rs.2, some rs.2.latest_time))

/-- Run a sequence of scheduler operations, collecting the times at which
successive `get_next` calls deliver (i.e. the popped item times). -/
def runOps (s : Scheduler) : List SchedOp → Option (Scheduler × List Time)
  | [] => some (s, [])
  | op :: ops =>
    match op.apply s with
    | none => none
    | some (s', t?) =>
      match runOps s' ops with
      | none => none
      | some (s'', ts) => some (s'', t?.toList ++ ts)

/-- The scheduler's heap invariant: every heap entry's time is at least
`latest_time`. It holds for `Scheduler.new` and is preserved by every
operation. -/
def SchedulerWF (s : Scheduler) : Prop :=
  ∀ it ∈ s.items, s.latest_time ≤ it.time

/-! ## Driving sim (`sim/src/mechanics/driving.rs`) -/

/-- `TIME_TO_UNPARK` (`driving.rs`): 10 seconds. -/
def TIME_TO_UNPARK : Time := 10

/-- `TIME_TO_PARK` (`driving.rs`): 15 seconds. -/
def TIME_TO_PARK : Time := 15

/-- `TIME_TO_WAIT_AT_STOP` (`driving.rs`): 10 seconds. -/
def TIME_TO_WAIT_AT_STOP : Time := 10

/-- Modelled from the spec: `FOLLOWING_DISTANCE`, the minimum gap between the
rear of a leader and the front of a follower. The constant lives in the crate
root (not among the embedded files); the claims use it symbolically, so its
concrete value is immaterial. -/
def FOLLOWING_DISTANCE : Dist := 1

/-- A closed simulated-time interval `[start, stop]` (`TimeInterval::new`). -/
structure TimeInterval where
  start : Time
  stop : Time
deriving DecidableEq, Repr

/-- A distance interval along a traversable. -/
structure DistInterval where
  start : Dist
  stop : Dist
deriving DecidableEq, Repr

/-- Modelled from the spec: the `CarState` tagged variant. -/
inductive CarState where
  | Crossing (ti : TimeInterval) (di : DistInterval)
  | Queued
  | Unparking (front : Dist) (ti : TimeInterval)
  | Parking (front : Dist) (spot : Nat) (ti : TimeInterval)
  | Idling (front : Dist) (ti : TimeInterval)
deriving DecidableEq, Repr

/-- Modelled from the spec: a `Car` record — immutable vehicle attributes, the
router cursor, the current state, and the trailing `last_steps` history. -/
structure Car where
  vehicle : Vehicle
  router : RouterModel
  state : CarState
  last_steps : List Traversable
deriving DecidableEq, Repr

/-- `Car::is_queued` (external `car.rs`, modelled from the spec): the state is
exactly `Queued`. -/
def Car.is_queued (c : Car) : Bool :=
  match c.state with
  | .Queued => true
  | _ => false

/-- Modelled from the spec: a per-traversable `Queue` — its id, geometric
length, and the ordered car ids (head first, index 0 closest to the end). -/
structure Queue where
  id : Traversable
  geom_len : Dist
  cars : List Nat
deriving DecidableEq, Repr

/-- `ActionAtEnd` (external `router.rs`, modelled from the spec): what a car
does at the end of its path. -/
inductive ActionAtEnd where
  | VanishAtBorder (i : Nat)
  | StartParking (spot : Nat)
  | GotoLaneEnd
  | StopBiking (rack : Nat)
  | BusAtStop
deriving DecidableEq, Repr

/-- Modelled from the spec: the slice of `ParkingSimState` the driving step
touches — the set of spots reserved so far and the committed parked cars. -/
structure ParkingSim where
  reserved : List Nat
  parked : List (Vehicle × Nat)
deriving DecidableEq, Repr

/-- `ParkingSimState::reserve_spot` (external, modelled from the spec). -/
def ParkingSim.reserve_spot (p : ParkingSim) (spot : Nat) : ParkingSim :=
  { p with reserved := spot :: p.reserved }

/-- `ParkingSimState::add_parked_car` (external, modelled from the spec). -/
def ParkingSim.add_parked_car (p : ParkingSim) (v : Vehicle) (spot : Nat) :
    ParkingSim :=
  { p with parked := (v, spot) :: p.parked }

/-- `DrivingSimState`: the car table and the queue table, both ordered maps
modelled as association lists keyed by the stable id. -/
structure DrivingState where
  cars : List (Nat × Car)
  queues : List (Traversable × Queue)
deriving DecidableEq, Repr

/-- The external collaborator behaviour Phase 2 of `step_if_needed` consults,
passed as functions just as the Rust code receives `&mut` collaborators:
`maybeHandleEnd` is `router.maybe_handle_end(dist, vehicle, parking, map)` for
a given car, reading the current parking state; `crossingState` is
`car.crossing_state(dist, time, map)` at the step's fixed time and map;
`busDepartRouter` is `transit.bus_departed_from_stop(id, map)`. Notifications
to `trips`/`transit`/`walking` mutate only those external collaborators and
are not modelled. -/
structure Phase2Ctx where
  maybeHandleEnd : Nat → Dist → ParkingSim → Option ActionAtEnd
  crossingState : Nat → Dist → CarState
  busDepartRouter : Nat → RouterModel

/-- The mutable state threaded through the Phase-2 scan of one queue: the car
table, the parking collaborator, and the deferred `delete_indices` list of
`(index, front_dist)` pairs. -/
structure Phase2State where
  cars : List (Nat × Car)
  parking : ParkingSim
  delete_indices : List (Nat × Dist)
deriving Repr

/-- One iteration of the Phase-2 scan (`driving.rs`, the loop over
`get_car_positions`): car `id` at queue index `idx` and front distance `dist`.
`none` models the `unwrap` panic on a car id missing from the table. -/
def phase2HandleCar (ctx : Phase2Ctx) (time : Time) (st : Phase2State)
    (idx : Nat) (id : Nat) (dist : Dist) : Option Phase2State :=
  match alookup id st.cars with
  | none => none
  | some car =>
    if ¬ car.router.last_step then some st
    else
      match car.state with
      | .Queued =>
        match ctx.maybeHandleEnd id dist st.parking with
        | some (.VanishAtBorder _) =>
          some { st with delete_indices := st.delete_indices ++ [(idx, dist)] }
        | some (.StartParking spot) =>
          some { st with
            cars := ainsert id
              { car with state :=
                  .Parking dist spot ⟨time, time + TIME_TO_PARK⟩ } st.cars
            parking := st.parking.reserve_spot spot }
        | some .GotoLaneEnd =>
          some { st with
            cars := ainsert id
              { car with state := ctx.crossingState id dist } st.cars }
        | some (.StopBiking _) =>
          some { st with delete_indices := st.delete_indices ++ [(idx, dist)] }
        | some .BusAtStop =>
          some { st with
            cars := ainsert id
              { car with state :=
                  .Idling dist ⟨time, time + TIME_TO_WAIT_AT_STOP⟩ } st.cars }
        | none => some st
      | .Parking _ spot ti =>
        if ti.stop < time then
          some { st with
            delete_indices := st.delete_indices ++ [(idx, dist)]
            parking := st.parking.add_parked_car car.vehicle spot }
        else some st
      | .Idling front ti =>
        if ti.stop < time then
          some { st with
            cars := ainsert id
              { car with router := ctx.busDepartRouter id
                         state := ctx.crossingState id front } st.cars }
        else some st
      | _ => some st

/-- The Phase-2 scan over the enumerated `(id, dist)` positions of one queue,
starting at index `i`. -/
def phase2ScanFrom (ctx : Phase2Ctx) (time : Time) :
    Nat → Phase2State → List (Nat × Dist) → Option Phase2State
  | _, st, [] => some st
  | i, st, (id, dist) :: rest =>
    match phase2HandleCar ctx time st i id dist with
    | none => none
    | some st' => phase2ScanFrom ctx time (i + 1) st' rest

/-- One deferred removal (`driving.rs`, the loop over the reversed
`delete_indices`): remove the car at `idx` from the queue and from the car
table; if a follower now sits at `idx` and is `Queued`, re-synthesize it into
a crossing state starting at
`leader_dist - leader.vehicle.length - FOLLOWING_DISTANCE`. `none` models the
`unwrap` panics on missing indices or car records. -/
def applyOneRemoval (ctx : Phase2Ctx) (cars : List (Nat × Car)) (queue : Queue)
    (idx : Nat) (leader_dist : Dist) : Option (List (Nat × Car) × Queue) :=
  match queue.cars.get? idx with
  | none => none
  | some leader_id =>
    match alookup leader_id cars with
    | none => none
    | some leader =>
      let cars' := aremove leader_id cars
      let qcars := queue.cars.eraseIdx idx
      let queue' := { queue with cars := qcars }
      if idx = qcars.length then some (cars', queue')
      else
        match qcars.get? idx with
        | none => none
        | some fid =>
          match alookup fid cars' with
          | none => none
          | some fol =>
            match fol.state with
            | .Queued =>
              let d : Dist :=
                leader_dist - leader.vehicle.length - FOLLOWING_DISTANCE
              some (ainsert fid { fol with state := ctx.crossingState fid d }
                cars', queue')
            | _ => some (cars', queue')

/-- Apply a list of deferred removals in the order given. -/
def applyRemovalsList (ctx : Phase2Ctx) :
    List (Nat × Dist) → List (Nat × Car) × Queue →
    Option (List (Nat × Car) × Queue)
  | [], st => some st
  | (idx, d) :: rest, (cars, queue) =>
    match applyOneRemoval ctx cars queue idx d with
    | none => none
    | some st' => applyRemovalsList ctx rest st'

/-- Phase 2 for one queue: scan the positions (accumulating state changes,
reservations and `delete_indices`), then apply the deferred removals starting
from the end of the queue — `delete_indices.reverse()` in the source. -/
def phase2ProcessQueue (ctx : Phase2Ctx) (time : Time)
    (cars : List (Nat × Car)) (parking : ParkingSim) (queue : Queue)
    (positions : List (Nat × Dist)) :
    Option (List (Nat × Car) × ParkingSim × Queue) :=
  match phase2ScanFrom ctx time 0 ⟨cars, parking, []⟩ positions with
  | none => none
  | some st =>
    match applyRemovalsList ctx st.delete_indices.reverse (st.cars, queue) with
    | none => none
    | some (cars', queue') => some (cars', st.parking, queue')

/-- `router.advance(&vehicle, parking, map)` (external `router.rs`, modelled
from the spec): return the step just finished and move the cursor to the next
traversable. -/
def RouterModel.advance (r : RouterModel) : Option (Traversable × RouterModel) :=
  match r.steps.head? with
  | none => none
  | some h => some (h, { r with steps := r.steps.tail })

/-- The external collaborator behaviour Phase 3 of `step_if_needed` consults:
`roomAtEnd` is `self.queues[&goto].room_at_end(time, &self.cars)`;
`maybeStartTurn` is `intersections.maybe_start_turn(AgentID::Car(id), t, time,
map)`; `crossingState` is `car.crossing_state(dist, time, map)`;
`travLength` is `from.length(map)`; `trimLastSteps` is
`car.trim_last_steps(map)` acting on the history. `turn_finished` mutates only
the external intersection state and is not modelled. -/
structure Phase3Ctx where
  roomAtEnd : Traversable → Bool
  maybeStartTurn : Nat → Nat → Bool
  crossingState : Nat → Dist → CarState
  travLength : Traversable → Dist
  trimLastSteps : List Traversable → List Traversable

/-- `head_cars_ready_to_advance` (`driving.rs`): the queues whose head car is
`Queued` and not on its last step. -/
def headCarsReadyToAdvance (st : DrivingState) : List Traversable :=
  st.queues.filterMap fun kq =>
    match kq.2.cars.head? with
    | none => none
    | some cid =>
      match alookup cid st.cars with
      | none => none
      | some car =>
        if car.is_queued ∧ ¬ car.router.last_step then some kq.2.id else none

/-- One Phase-3 hand-off (`driving.rs`, the loop body over
`head_cars_ready_to_advance`). If the target queue has no room at its end, or
the target is a turn the intersection refuses, the iteration is a `continue`
and the state is returned unchanged. Otherwise the head is popped, a `Queued`
follower is re-synthesized at
`from.length(map) - leader_length - FOLLOWING_DISTANCE`, the leader's router
advances (the finished step is pushed onto `last_steps` and the history
trimmed), the leader becomes `Crossing` from distance 0, and it is pushed onto
the target queue's tail. `none` models the `unwrap`/index panics on broken
internal invariants. -/
def phase3HandleOne (ctx : Phase3Ctx) (st : DrivingState)
    (src : Traversable) : Option DrivingState :=
  match alookup src st.queues with
  | none => none
  | some fq =>
    match fq.cars.head? with
    | none => none
    | some leader_id =>
      match alookup leader_id st.cars with
      | none => none
      | some leaderCar =>
        match leaderCar.router.next with
        | none => none
        | some goto =>
          if ¬ ctx.roomAtEnd goto then some st
          else
            if (match goto with
                | .turn t => ! ctx.maybeStartTurn leader_id t
                | .lane _ => false) then some st
            else
              let fq' := { fq with cars := fq.cars.tail }
              let queues1 := ainsert src fq' st.queues
              let carsAfterFollower : Option (List (Nat × Car)) :=
                match fq'.cars.head? with
                | none => some st.cars
                | some fid =>
                  match alookup fid st.cars with
                  | none => none
                  | some fol =>
                    match fol.state with
                    | .Queued =>
                      let d : Dist := ctx.travLength src -
                        leaderCar.vehicle.length - FOLLOWING_DISTANCE
                      some (ainsert fid
                        { fol with state := ctx.crossingState fid d } st.cars)
                    | _ => some st.cars
              match carsAfterFollower with
              | none => none
              | some cars1 =>
                match leaderCar.router.advance with
                | none => none
                | some (last_step, router') =>
                  let leader' : Car :=
                    { leaderCar with
                      router := router'
                      last_steps :=
                        ctx.trimLastSteps (last_step :: leaderCar.last_steps)
                      state := ctx.crossingState leader_id 0 }
                  let cars2 := ainsert leader_id leader' cars1
                  match alookup goto queues1 with
                  | none => none
                  | some gq =>
                    let gq' := { gq with cars := gq.cars ++ [leader_id] }
                    some { cars := cars2, queues := ainsert goto gq' queues1 }

/-- `DrivingSimState::start_car_on_lane` (`driving.rs`). The collaborator
checks are passed as functions: `nobodyHeadedTowards` is
`intersections.nobody_headed_towards(first_lane, map.get_l(first_lane).src_i)`;
`getIdxToInsertCar start_dist length` is the first lane's queue admission
`get_idx_to_insert_car(start_dist, length, time, &self.cars)`;
`crossingState` is `car.crossing_state(start_dist, time, map)`. `none` models
the panic when the router's head is not a lane or the queue is missing. -/
def start_car_on_lane (time : Time) (params : CreateCar)
    (nobodyHeadedTowards : Nat → Bool)
    (getIdxToInsertCar : Dist → Dist → Option Nat)
    (crossingState : Dist → CarState)
    (st : DrivingState) : Option (Bool × DrivingState) :=
  match params.router.head with
  | some (.lane first_lane) =>
    if ¬ nobodyHeadedTowards first_lane then some (false, st)
    else
      match alookup (Traversable.lane first_lane) st.queues with
      | none => none
      | some q =>
        match getIdxToInsertCar params.start_dist params.vehicle.length with
        | some idx =>
          let car : Car :=
            { vehicle := params.vehicle
              router := params.router
              state :=
                if params.maybeParkedCar then
                  .Unparking params.start_dist ⟨time, time + TIME_TO_UNPARK⟩
                else crossingState params.start_dist
              last_steps := [] }
          let q' := { q with cars := q.cars.insertIdx idx params.vehicle.id }
          some (true,
            { st with
              queues := ainsert (Traversable.lane first_lane) q' st.queues
              cars := ainsert params.vehicle.id car st.cars })
        | none => some (false, st)
  | _ => none

/-! ## Lemmas about the modelled heap pop -/

theorem popBest_eq_none_iff (l : List Item) : popBest l = none ↔ l = [] := by
  cases l with
  | nil => simp [popBest]
  | cons x xs =>
    simp only [popBest]
    cases h : popBest xs with
    | none => simp
    | some p =>
      obtain ⟨y, ys⟩ := p
      by_cases hb : popsBefore y x <;> simp [hb]

theorem popsBefore_time_le {a b : Item} (h : popsBefore a b = true) :
    a.time ≤ b.time := by
  unfold popsBefore at h
  by_cases he : a.time = b.time
  · exact le_of_eq he
  · rw [if_neg he] at h
    exact le_of_lt (by exact_mod_cast of_decide_eq_true h)

theorem not_popsBefore_time_le {a b : Item} (h : ¬ popsBefore a b = true) :
    b.time ≤ a.time := by
  unfold popsBefore at h
  by_cases he : a.time = b.time
  · exact le_of_eq he.symm
  · rw [if_neg he] at h
    exact le_of_not_lt (fun hlt => h (decide_eq_true hlt))

/-- The popped item belongs to the heap, pops no later than every heap entry
(minimal time), and the remaining items all come from the heap. -/
theorem popBest_spec (l : List Item) (x : Item) (rest : List Item)
    (h : popBest l = some (x, rest)) :
    x ∈ l ∧ (∀ z ∈ l, x.time ≤ z.time) ∧ (∀ z ∈ rest, z ∈ l) := by
  induction l generalizing x rest with
  | nil => simp [popBest] at h
  | cons a xs ih =>
    cases hxs : popBest xs with
    | none =>
      simp only [popBest, hxs, Option.some.injEq, Prod.mk.injEq] at h
      obtain rfl : xs = [] := (popBest_eq_none_iff xs).1 hxs
      obtain ⟨rfl, rfl⟩ := h
      refine ⟨List.mem_cons_self _ _, ?_, by simp⟩
      intro z hz
      rcases List.mem_cons.1 hz with rfl | hz'
      · exact le_refl _
      · simp at hz'
    | some p =>
      obtain ⟨y, ys⟩ := p
      obtain ⟨hy_mem, hy_min, hys_sub⟩ := ih y ys hxs
      by_cases hb : popsBefore y a
      · simp only [popBest, hxs, if_pos hb, Option.some.injEq, Prod.mk.injEq] at h
        obtain ⟨rfl, rfl⟩ := h
        refine ⟨List.mem_cons_of_mem _ hy_mem, ?_, ?_⟩
        · intro z hz
          rcases List.mem_cons.1 hz with rfl | hz'
          · exact popsBefore_time_le hb
          · exact hy_min z hz'
        · intro z hz
          rcases List.mem_cons.1 hz with rfl | hz'
          · exact List.mem_cons_self _ _
          · exact List.mem_cons_of_mem _ (hys_sub z hz')
      · simp only [popBest, hxs, if_neg hb, Option.some.injEq, Prod.mk.injEq] at h
        obtain ⟨rfl, rfl⟩ := h
        refine ⟨List.mem_cons_self _ _, ?_, fun z hz => List.mem_cons_of_mem _ hz⟩
        intro z hz
        rcases List.mem_cons.1 hz with rfl | hz'
        · exact le_refl _
        · exact le_trans (not_popsBefore_time_le hb) (hy_min z hz')

/-! ## Claim C9 -/

/-- C9: `get_next` on a scheduler whose heap is empty panics — the
`pop().unwrap()` is modelled by the outer `Option`, and it is `none` exactly
when the heap is empty; on a non-empty heap `get_next` always produces a
result rather than panicking. -/
theorem get_next_panics_iff_empty_heap (s : Scheduler) :
    s.get_next = none ↔ s.items = [] := by
  unfold Scheduler.get_next
  cases h : popBest s.items with
  | none => simpa using (popBest_eq_none_iff s.items).1 h
  | some p =>
    obtain ⟨item, rest⟩ := p
    constructor
    · intro hc
      cases hlook : alookup item.cmd_type s.queued_commands with
      | none => simp [hlook] at hc
      | some ct =>
        obtain ⟨cmd, t⟩ := ct
        by_cases hlt : item.time < t <;> simp [hlook, hlt] at hc
    · intro he
      rw [he] at h
      simp [popBest] at h

/-! ## Claim C1 -/

/-- C1: on a non-empty heap, `get_next` pops the heap root `item`, sets
`latest_time := item.time` (leaving `last_time` alone), and either (a) the
table holds the popped key with scheduled time `≤ item.time`, in which case
that canonical command is returned and removed from the table, or (b) the
result is `none`, the table is left unchanged, and any table entry under the
popped key is scheduled strictly later than the popped time. -/
theorem get_next_spec (s : Scheduler) (item : Item) (rest : List Item)
    (hpop : popBest s.items = some (item, rest)) :
    ∃ r s', s.get_next = some (r, s') ∧ s'.items = rest ∧
      s'.latest_time = item.time ∧ s'.last_time = s.last_time ∧
      ((∃ cmd t, alookup item.cmd_type s.queued_commands = some (cmd, t) ∧
          t ≤ item.time ∧ r = some cmd ∧
          s'.queued_commands = aremove item.cmd_type s.queued_commands) ∨
        (r = none ∧ s'.queued_commands = s.queued_commands ∧
          ∀ cmd t, alookup item.cmd_type s.queued_commands = some (cmd, t) →
            item.time < t)) := by
  cases hlook : alookup item.cmd_type s.queued_commands with
  | none =>
    refine ⟨none, { s with items := rest, latest_time := item.time },
      ?_, rfl, rfl, rfl, Or.inr ⟨rfl, rfl, ?_⟩⟩
    · simp only [Scheduler.get_next, hpop, hlook]
    · intro cmd t hct
      exact absurd hct (by simp)
  | some ct =>
    obtain ⟨cmd, t⟩ := ct
    by_cases hlt : item.time < t
    · refine ⟨none, { s with items := rest, latest_time := item.time },
        ?_, rfl, rfl, rfl, Or.inr ⟨rfl, rfl, ?_⟩⟩
      · simp only [Scheduler.get_next, hpop, hlook, if_pos hlt]
      · intro cmd' t' hct
        simp only [Option.some.injEq, Prod.mk.injEq] at hct
        rw [← hct.2]
        exact hlt
    · refine ⟨some cmd,
        { s with items := rest, latest_time := item.time,
                 queued_commands := aremove item.cmd_type s.queued_commands },
        ?_, rfl, rfl, rfl,
        Or.inl ⟨cmd, t, rfl, le_of_not_lt hlt, rfl, rfl⟩⟩
      simp only [Scheduler.get_next, hpop, hlook, if_neg hlt]

/-- Witness for C1: a scheduler whose heap holds a live entry at time 5 and a
stale entry for a cancelled key at time 3. -/
theorem get_next_spec_witness :
    popBest [Item.mk 5 (.Car 3), Item.mk 3 (.Callback)] =
      some (Item.mk 3 (.Callback), [Item.mk 5 (.Car 3)]) ∧
    ∃ r s',
      Scheduler.get_next
        { items := [Item.mk 5 (.Car 3), Item.mk 3 (.Callback)]
          queued_commands := [(.Car 3, (.UpdateCar 3, 5))]
          latest_time := 0
          last_time := 5 } = some (r, s') ∧
      s'.items = [Item.mk 5 (.Car 3)] ∧
      s'.latest_time = 3 ∧ s'.last_time = 5 ∧
      ((∃ cmd t,
          alookup (CommandType.Callback)
            [((CommandType.Car 3 : CommandType), ((.UpdateCar 3 : Command), (5 : Time)))] =
            some (cmd, t) ∧ t ≤ 3 ∧ r = some cmd ∧
          s'.queued_commands =
            aremove (CommandType.Callback)
              [((CommandType.Car 3 : CommandType), ((.UpdateCar 3 : Command), (5 : Time)))]) ∨
        (r = none ∧
          s'.queued_commands =
            [((CommandType.Car 3 : CommandType), ((.UpdateCar 3 : Command), (5 : Time)))] ∧
          ∀ cmd t,
            alookup (CommandType.Callback)
              [((CommandType.Car 3 : CommandType), ((.UpdateCar 3 : Command), (5 : Time)))] =
              some (cmd, t) → 3 < t)) :=
  ⟨by decide, get_next_spec _ (Item.mk 3 .Callback) [Item.mk 5 (.Car 3)] (by decide)⟩

/-! ## Claim C10 -/

/-- C10: when no live command exists under `cmd`'s key and the time respects
`latest_time`, `update(t, cmd)` succeeds and behaves exactly like
`push(t, cmd)`: it inserts `(cmd, t)` into the table and pushes a heap entry.
(The schedulers compared here omit the diagnostic histogram/counters, which
the spec calls non-authoritative and which are not serialized.) -/
theorem update_vacant_eq_push (s : Scheduler) (t : Time) (cmd : Command)
    (hle : s.latest_time ≤ t)
    (hvacant : alookup cmd.toType s.queued_commands = none) :
    s.update t cmd = s.push t cmd ∧ s.update t cmd ≠ none := by
  constructor
  · simp only [Scheduler.update, Scheduler.push, if_neg (not_lt_of_le hle),
      hvacant]
  · simp only [Scheduler.update, if_neg (not_lt_of_le hle), hvacant]
    simp

/-- Witness for C10: updating a fresh key on a new scheduler. -/
theorem update_vacant_eq_push_witness :
    Scheduler.new.latest_time ≤ 4 ∧
    alookup (Command.UpdateCar 9).toType Scheduler.new.queued_commands = none ∧
    (Scheduler.new.update 4 (.UpdateCar 9) = Scheduler.new.push 4 (.UpdateCar 9) ∧
      Scheduler.new.update 4 (.UpdateCar 9) ≠ none) :=
  ⟨by decide, by decide,
    update_vacant_eq_push Scheduler.new 4 (.UpdateCar 9) (by decide) (by decide)⟩

/-! ## Preservation of the heap invariant, and Claim C2 -/

theorem push_wf {s s' : Scheduler} {t : Time} {cmd : Command}
    (h : s.push t cmd = some s') (hwf : SchedulerWF s) :
    SchedulerWF s' ∧ s'.latest_time = s.latest_time := by
  by_cases hlt : t < s.latest_time
  · simp [Scheduler.push, hlt] at h
  · cases hlook : alookup cmd.toType s.queued_commands with
    | some v => simp [Scheduler.push, hlt, hlook] at h
    | none =>
      simp only [Scheduler.push, if_neg hlt, hlook, Option.some.injEq] at h
      subst h
      refine ⟨?_, rfl⟩
      intro it hit
      rcases List.mem_cons.1 hit with rfl | hit'
      · exact le_of_not_lt hlt
      · exact hwf it hit'

theorem update_wf {s s' : Scheduler} {t : Time} {cmd : Command}
    (h : s.update t cmd = some s') (hwf : SchedulerWF s) :
    SchedulerWF s' ∧ s'.latest_time = s.latest_time := by
  by_cases hlt : t < s.latest_time
  · simp [Scheduler.update, hlt] at h
  · have key : s'.items = ⟨t, cmd.toType⟩ :: s.items ∧
        s'.latest_time = s.latest_time := by
      cases hlook : alookup cmd.toType s.queued_commands with
      | none =>
        simp only [Scheduler.update, if_neg hlt, hlook, Option.some.injEq] at h
        subst h
        exact ⟨rfl, rfl⟩
      | some v =>
        obtain ⟨existing, te⟩ := v
        by_cases hceq : cmd = existing
        · simp only [Scheduler.update, if_neg hlt, hlook, if_pos hceq,
            Option.some.injEq] at h
          subst h
          exact ⟨rfl, rfl⟩
        · simp [Scheduler.update, hlt, hlook, hceq] at h
    refine ⟨?_, key.2⟩
    intro it hit
    rw [key.1] at hit
    rw [key.2]
    rcases List.mem_cons.1 hit with rfl | hit'
    · exact le_of_not_lt hlt
    · exact hwf it hit'

theorem cancel_wf (s : Scheduler) (cmd : Command) (hwf : SchedulerWF s) :
    SchedulerWF (s.cancel cmd) ∧ (s.cancel cmd).latest_time = s.latest_time :=
  ⟨fun it hit => hwf it hit, rfl⟩

/-- Shape of a successful `get_next`: the heap root was popped and
`latest_time` became its time, whatever the table said. -/
theorem get_next_shape {s : Scheduler} {r : Option Command} {s' : Scheduler}
    (h : s.get_next = some (r, s')) :
    ∃ item rest, popBest s.items = some (item, rest) ∧ s'.items = rest ∧
      s'.latest_time = item.time := by
  cases hpop : popBest s.items with
  | none => simp [Scheduler.get_next, hpop] at h
  | some p =>
    obtain ⟨item, rest⟩ := p
    refine ⟨item, rest, rfl, ?_⟩
    cases hlook : alookup item.cmd_type s.queued_commands with
    | none =>
      simp only [Scheduler.get_next, hpop, hlook, Option.some.injEq,
        Prod.mk.injEq] at h
      obtain ⟨-, rfl⟩ := h
      exact ⟨rfl, rfl⟩
    | some ct =>
      obtain ⟨cmd, t⟩ := ct
      by_cases hlt : item.time < t
      · simp only [Scheduler.get_next, hpop, hlook, if_pos hlt,
          Option.some.injEq, Prod.mk.injEq] at h
        obtain ⟨-, rfl⟩ := h
        exact ⟨rfl, rfl⟩
      · simp only [Scheduler.get_next, hpop, hlook, if_neg hlt,
          Option.some.injEq, Prod.mk.injEq] at h
        obtain ⟨-, rfl⟩ := h
        exact ⟨rfl, rfl⟩

theorem get_next_wf {s : Scheduler} {r : Option Command} {s' : Scheduler}
    (h : s.get_next = some (r, s')) (hwf : SchedulerWF s) :
    SchedulerWF s' ∧ s.latest_time ≤ s'.latest_time := by
  obtain ⟨item, rest, hpop, hitems, hlatest⟩ := get_next_shape h
  obtain ⟨hmem, hmin, hsub⟩ := popBest_spec s.items item rest hpop
  constructor
  · intro it hit
    rw [hitems] at hit
    rw [hlatest]
    exact hmin it (hsub it hit)
  · rw [hlatest]
    exact hwf item hmem

/-- One operation preserves the invariant; `latest_time` never decreases; a
pop reports exactly the new `latest_time`, every other operation reports
nothing and leaves `latest_time` alone. -/
theorem schedOp_apply_wf {s s1 : Scheduler} {op : SchedOp} {rep : Option Time}
    (h : SchedOp.apply s op = some (s1, rep)) (hwf : SchedulerWF s) :
    SchedulerWF s1 ∧ s.latest_time ≤ s1.latest_time ∧
      (match rep with
       | none => s1.latest_time = s.latest_time
       | some tm => tm = s1.latest_time) := by
  cases op with
  | push t cmd =>
    simp only [SchedOp.apply, Option.map_eq_some'] at h
    obtain ⟨sp, hp, heq⟩ := h
    simp only [Prod.mk.injEq] at heq
    obtain ⟨rfl, rfl⟩ := heq
    obtain ⟨hwf', hlat⟩ := push_wf hp hwf
    exact ⟨hwf', le_of_eq hlat.symm, hlat⟩
  | update t cmd =>
    simp only [SchedOp.apply, Option.map_eq_some'] at h
    obtain ⟨sp, hp, heq⟩ := h
    simp only [Prod.mk.injEq] at heq
    obtain ⟨rfl, rfl⟩ := heq
    obtain ⟨hwf', hlat⟩ := update_wf hp hwf
    exact ⟨hwf', le_of_eq hlat.symm, hlat⟩
  | cancel cmd =>
    simp only [SchedOp.apply, Option.some.injEq, Prod.mk.injEq] at h
    obtain ⟨rfl, rfl⟩ := h
    exact ⟨(cancel_wf s cmd hwf).1, le_refl _, rfl⟩
  | getNext =>
    simp only [SchedOp.apply, Option.map_eq_some'] at h
    obtain ⟨rs, hg, heq⟩ := h
    obtain ⟨r0, s0⟩ := rs
    simp only [Prod.mk.injEq] at heq
    obtain ⟨rfl, rfl⟩ := heq
    obtain ⟨hwf', hle⟩ := get_next_wf hg hwf
    exact ⟨hwf', hle, rfl⟩

theorem runOps_chain (ops : List SchedOp) :
    ∀ s s' ts, SchedulerWF s → runOps s ops = some (s', ts) →
      List.Chain' (· ≤ ·) (s.latest_time :: ts) ∧ SchedulerWF s' ∧
        s.latest_time ≤ s'.latest_time := by
  induction ops with
  | nil =>
    intro s s' ts hwf h
    simp only [runOps, Option.some.injEq, Prod.mk.injEq] at h
    obtain ⟨rfl, rfl⟩ := h
    exact ⟨List.chain'_singleton _, hwf, le_refl _⟩
  | cons op ops ih =>
    intro s s' ts hwf h
    cases happ : SchedOp.apply s op with
    | none => simp [runOps, happ] at h
    | some p =>
      obtain ⟨s1, rep⟩ := p
      cases hrun : runOps s1 ops with
      | none => simp [runOps, happ, hrun] at h
      | some q =>
        obtain ⟨s2, ts1⟩ := q
        simp only [runOps, happ, hrun, Option.some.injEq, Prod.mk.injEq] at h
        obtain ⟨rfl, rfl⟩ := h
        obtain ⟨hwf1, hle1, hrep⟩ := schedOp_apply_wf happ hwf
        obtain ⟨hchain, hwf2, hle2⟩ := ih s1 s2 ts1 hwf1 hrun
        cases rep with
        | none =>
          simp only [Option.toList, List.nil_append]
          rw [show s.latest_time = s1.latest_time from hrep.symm]
          exact ⟨hchain, hwf2, hrep ▸ hle2⟩
        | some tm =>
          simp only [Option.toList, List.cons_append, List.nil_append]
          refine ⟨List.chain'_cons.2 ⟨?_, ?_⟩, hwf2, le_trans hle1 hle2⟩
          · rw [hrep]
            exact hle1
          · rw [hrep]
            exact hchain

/-- C2: starting from any scheduler satisfying the heap invariant (every heap
entry is scheduled no earlier than `latest_time`, which `Scheduler.new`
trivially satisfies), any sequence of `push`/`update`/`cancel`/`get_next`
operations whose preconditions all hold (a failed precondition panics, i.e.
the run returns `none`) delivers a non-decreasing sequence of popped times,
and no popped time is ever below the initial `latest_time`. -/
theorem scheduler_pop_times_monotone (s : Scheduler) (ops : List SchedOp)
    (s' : Scheduler) (ts : List Time) (hwf : SchedulerWF s)
    (hrun : runOps s ops = some (s', ts)) :
    List.Chain' (· ≤ ·) (s.latest_time :: ts) :=
  (runOps_chain ops s s' ts hwf hrun).1

/-- Witness for C2: pushing at times 7 and 2, rescheduling, cancelling and
draining from a fresh scheduler yields pops at non-decreasing times. -/
theorem scheduler_pop_times_monotone_witness :
    List.Chain' (· ≤ ·) (Scheduler.new.latest_time :: [2, 7, 9]) :=
  scheduler_pop_times_monotone Scheduler.new
    [.push 7 (.UpdateCar 1), .push 2 (.UpdatePed 4), .getNext, .getNext,
      .update 9 (.UpdateCar 1), .getNext]
    { items := [], queued_commands := [], latest_time := 9, last_time := 9 }
    [2, 7, 9] (by intro it hit; simp [Scheduler.new] at hit) (by decide)

/-! ## Claim C3 -/

/-- C3: from a fresh scheduler, `push(t1, cmd)` followed by
`update(t2, cmd)` with `t2 > t1` and the identical command payload leaves two
heap entries and one table entry at time `t2`. Draining: the first `get_next`
surfaces the stale `t1` entry and returns `none` (setting `latest_time := t1`,
table untouched), the second returns the command itself at observed time `t2`,
after which heap and table are empty — the command is delivered exactly
once. -/
theorem push_update_replaces_time (t1 t2 : Time) (cmd : Command)
    (h12 : t1 < t2) :
    Scheduler.new.push t1 cmd = some
      { items := [⟨t1, cmd.toType⟩]
        queued_commands := [(cmd.toType, (cmd, t1))]
        latest_time := 0, last_time := max 0 t1 } ∧
    Scheduler.update
      { items := [⟨t1, cmd.toType⟩]
        queued_commands := [(cmd.toType, (cmd, t1))]
        latest_time := 0, last_time := max 0 t1 } t2 cmd = some
      { items := [⟨t2, cmd.toType⟩, ⟨t1, cmd.toType⟩]
        queued_commands := [(cmd.toType, (cmd, t2))]
        latest_time := 0, last_time := max (max 0 t1) t2 } ∧
    Scheduler.get_next
      { items := [⟨t2, cmd.toType⟩, ⟨t1, cmd.toType⟩]
        queued_commands := [(cmd.toType, (cmd, t2))]
        latest_time := 0, last_time := max (max 0 t1) t2 } = some (none,
      { items := [⟨t2, cmd.toType⟩]
        queued_commands := [(cmd.toType, (cmd, t2))]
        latest_time := t1, last_time := max (max 0 t1) t2 }) ∧
    Scheduler.get_next
      { items := [⟨t2, cmd.toType⟩]
        queued_commands := [(cmd.toType, (cmd, t2))]
        latest_time := t1, last_time := max (max 0 t1) t2 } = some (some cmd,
      { items := [], queued_commands := [], latest_time := t2,
        last_time := max (max 0 t1) t2 }) := by
  have hne : t1 ≠ t2 := Nat.ne_of_lt h12
  refine ⟨?_, ?_, ?_, ?_⟩
  · simp [Scheduler.push, Scheduler.new, START_OF_DAY, alookup, ainsert]
  · simp [Scheduler.update, alookup, ainsert]
  · simp [Scheduler.get_next, popBest, popsBefore, hne, h12, alookup]
  · simp [Scheduler.get_next, popBest, alookup, aremove, lt_irrefl]

/-- Witness for C3: `push(5, UpdateCar 3)` then `update(8, UpdateCar 3)`. -/
theorem push_update_replaces_time_witness :
    Scheduler.new.push 5 (.UpdateCar 3) = some
      { items := [⟨5, (Command.UpdateCar 3).toType⟩]
        queued_commands := [((Command.UpdateCar 3).toType, (.UpdateCar 3, 5))]
        latest_time := 0, last_time := max 0 5 } ∧
    Scheduler.update
      { items := [⟨5, (Command.UpdateCar 3).toType⟩]
        queued_commands := [((Command.UpdateCar 3).toType, (.UpdateCar 3, 5))]
        latest_time := 0, last_time := max 0 5 } 8 (.UpdateCar 3) = some
      { items := [⟨8, (Command.UpdateCar 3).toType⟩,
                  ⟨5, (Command.UpdateCar 3).toType⟩]
        queued_commands := [((Command.UpdateCar 3).toType, (.UpdateCar 3, 8))]
        latest_time := 0, last_time := max (max 0 5) 8 } ∧
    Scheduler.get_next
      { items := [⟨8, (Command.UpdateCar 3).toType⟩,
                  ⟨5, (Command.UpdateCar 3).toType⟩]
        queued_commands := [((Command.UpdateCar 3).toType, (.UpdateCar 3, 8))]
        latest_time := 0, last_time := max (max 0 5) 8 } = some (none,
      { items := [⟨8, (Command.UpdateCar 3).toType⟩]
        queued_commands := [((Command.UpdateCar 3).toType, (.UpdateCar 3, 8))]
        latest_time := 5, last_time := max (max 0 5) 8 }) ∧
    Scheduler.get_next
      { items := [⟨8, (Command.UpdateCar 3).toType⟩]
        queued_commands := [((Command.UpdateCar 3).toType, (.UpdateCar 3, 8))]
        latest_time := 5, last_time := max (max 0 5) 8 } = some
      (some (.UpdateCar 3),
      { items := [], queued_commands := [], latest_time := 8,
        last_time := max (max 0 5) 8 }) :=
  push_update_replaces_time 5 8 (.UpdateCar 3) (by decide)

/-! ## Claim C8 -/

theorem vecPop_append (l : List Path) (x : Path) :
    vecPop (l ++ [x]) = some (x, l) := by
  induction l with
  | nil => simp [vecPop]
  | cons a l ih => simp [vecPop, ih]

theorem extract_snd_reverse (e : CommandType × Command × Time) :
    (extractEntry e).2.reverse = (extractEntry e).2 := by
  obtain ⟨k, c, t⟩ := e
  cases c <;> simp [extractEntry]

/-- Restoring an extracted entry with its own extracted paths at the end of
the remaining restore vector yields the entry back and consumes exactly its
paths. -/
theorem restore_extract (e : CommandType × Command × Time) (r : List Path) :
    restoreEntry (extractEntry e).1 (r ++ (extractEntry e).2) = some (e, r) := by
  obtain ⟨k, c, t⟩ := e
  cases c with
  | SpawnCar create retry =>
    simp [extractEntry, restoreEntry,
      RouterModel.replace_path_for_serialization, vecPop_append]
  | SpawnPed create =>
    simp [extractEntry, restoreEntry, vecPop_append]
  | StartTrip a b => simp [extractEntry, restoreEntry]
  | UpdateCar a => simp [extractEntry, restoreEntry]
  | UpdateLaggyHead a => simp [extractEntry, restoreEntry]
  | UpdatePed a => simp [extractEntry, restoreEntry]
  | UpdateIntersection a => simp [extractEntry, restoreEntry]
  | Callback a => simp [extractEntry, restoreEntry]
  | Pandemic a => simp [extractEntry, restoreEntry]
  | FinishRemoteTrip a => simp [extractEntry, restoreEntry]
  | StartBus a b => simp [extractEntry, restoreEntry]

theorem after_before_list (entries : List (CommandType × Command × Time)) :
    afterSavestateList (beforeSavestateList entries).1
      ((beforeSavestateList entries).2.reverse) = some (entries, []) := by
  induction entries with
  | nil => simp [beforeSavestateList, afterSavestateList]
  | cons e rest ih =>
    simp only [beforeSavestateList, List.reverse_append, extract_snd_reverse,
      afterSavestateList, restore_extract, ih]

/-- C8: `after_savestate` applied to exactly the vector returned by
`before_savestate` restores every queued `SpawnCar`/`SpawnPed` command's
original path, succeeding (no `unwrap`/assert panic) and leaving the whole
scheduler — in particular `queued_commands` — equal to its state before the
pair of calls. -/
theorem savestate_round_trip (s : Scheduler) :
    (s.before_savestate.1).after_savestate s.before_savestate.2 = some s := by
  simp only [Scheduler.before_savestate, Scheduler.after_savestate,
    after_before_list]
  simp

/-! ## Claim C4 -/

/-- The Phase-2 scan only ever appends the *current* index to the deferred
removal list. -/
theorem phase2HandleCar_delete_indices {ctx : Phase2Ctx} {time : Time}
    {st st' : Phase2State} {idx id : Nat} {dist : Dist}
    (h : phase2HandleCar ctx time st idx id dist = some st') :
    st'.delete_indices = st.delete_indices ∨
      st'.delete_indices = st.delete_indices ++ [(idx, dist)] := by
  unfold phase2HandleCar at h
  repeat' split at h
  all_goals try exact Option.noConfusion h
  all_goals injection h with h'
  all_goals subst h'
  all_goals first
    | exact Or.inl rfl
    | exact Or.inr rfl

theorem phase2ScanFrom_pairwise (ctx : Phase2Ctx) (time : Time) :
    ∀ (positions : List (Nat × Dist)) (i : Nat) (st st' : Phase2State),
      phase2ScanFrom ctx time i st positions = some st' →
      (∀ p ∈ st.delete_indices, p.1 < i) →
      List.Pairwise (fun a b : Nat × Dist => a.1 < b.1) st.delete_indices →
      List.Pairwise (fun a b : Nat × Dist => a.1 < b.1) st'.delete_indices ∧
        ∀ p ∈ st'.delete_indices, p.1 < i + positions.length := by
  intro positions
  induction positions with
  | nil =>
    intro i st st' h hbound hpw
    simp only [phase2ScanFrom, Option.some.injEq] at h
    subst h
    exact ⟨hpw, by simpa using hbound⟩
  | cons p rest ih =>
    intro i st st' h hbound hpw
    obtain ⟨id, dist⟩ := p
    cases hh : phase2HandleCar ctx time st i id dist with
    | none => simp [phase2ScanFrom, hh] at h
    | some st1 =>
      simp only [phase2ScanFrom, hh] at h
      have hbound1 : ∀ q ∈ st1.delete_indices, q.1 < i + 1 := by
        rcases phase2HandleCar_delete_indices hh with hd | hd <;> rw [hd]
        · intro q hq
          exact Nat.lt_succ_of_lt (hbound q hq)
        · intro q hq
          rcases List.mem_append.1 hq with hq' | hq'
          · exact Nat.lt_succ_of_lt (hbound q hq')
          · simp only [List.mem_singleton] at hq'
            subst hq'
            exact Nat.lt_succ_self i
      have hpw1 : List.Pairwise (fun a b : Nat × Dist => a.1 < b.1)
          st1.delete_indices := by
        rcases phase2HandleCar_delete_indices hh with hd | hd <;> rw [hd]
        · exact hpw
        · refine List.pairwise_append.2 ⟨hpw, List.pairwise_singleton _ _, ?_⟩
          intro a ha b hb
          simp only [List.mem_singleton] at hb
          subst hb
          exact hbound a ha
      obtain ⟨hpw', hb'⟩ := ih (i + 1) st1 st' h hbound1 hpw1
      refine ⟨hpw', ?_⟩
      intro q hq
      have := hb' q hq
      simpa [Nat.add_comm, Nat.add_left_comm, Nat.add_assoc] using
        Nat.lt_of_lt_of_le this (by omega)

/-- C4: (i) the deferred removals collected by the Phase-2 scan carry strictly
increasing queue indices, so the reversed list the source iterates over
applies them in strictly descending index order; (ii) one deferred removal
removes the finished leader from the queue and the car table, and when a
follower exists at the removed index it is re-synthesized into the crossing
state starting at `leader_dist - leader.vehicle.length - FOLLOWING_DISTANCE`
exactly when it was `Queued`, and is left untouched in any other state. -/
theorem phase2_removals_spec :
    (∀ (ctx : Phase2Ctx) (time : Time) (cars : List (Nat × Car))
        (parking : ParkingSim) (positions : List (Nat × Dist))
        (st' : Phase2State),
        phase2ScanFrom ctx time 0 ⟨cars, parking, []⟩ positions = some st' →
        List.Pairwise (fun a b : Nat × Dist => b.1 < a.1)
          st'.delete_indices.reverse) ∧
    (∀ (ctx : Phase2Ctx) (cars : List (Nat × Car)) (queue : Queue)
        (idx : Nat) (dist : Dist) (lid : Nat) (leader : Car) (fid : Nat)
        (fol : Car),
        queue.cars.get? idx = some lid →
        alookup lid cars = some leader →
        (queue.cars.eraseIdx idx).get? idx = some fid →
        alookup fid (aremove lid cars) = some fol →
        (fol.state = .Queued →
          applyOneRemoval ctx cars queue idx dist = some
            (ainsert fid
              { fol with state := ctx.crossingState fid (dist - leader.vehicle.length - FOLLOWING_DISTANCE) }
              (aremove lid cars),
              { queue with cars := queue.cars.eraseIdx idx })) ∧
        (fol.state ≠ .Queued →
          applyOneRemoval ctx cars queue idx dist = some
            (aremove lid cars, { queue with cars := queue.cars.eraseIdx idx }))) := by
  constructor
  · intro ctx time cars parking positions st' h
    rw [List.pairwise_reverse]
    exact (phase2ScanFrom_pairwise ctx time positions 0 ⟨cars, parking, []⟩ st'
      h (by simp) (by simp)).1
  · intro ctx cars queue idx dist lid leader fid fol h1 h2 h3 h4
    have hlt : idx < (queue.cars.eraseIdx idx).length := by
      rcases List.get?_eq_some.1 h3 with ⟨hl, -⟩
      exact hl
    constructor
    · intro hq
      simp only [applyOneRemoval, h1, h2, if_neg (Nat.ne_of_lt hlt), h3, h4,
        hq]
    · intro hq
      cases hst : fol.state with
      | Queued => exact absurd hst hq
      | Crossing ti di =>
        simp only [applyOneRemoval, h1, h2, if_neg (Nat.ne_of_lt hlt), h3, h4,
          hst]
      | Unparking f ti =>
        simp only [applyOneRemoval, h1, h2, if_neg (Nat.ne_of_lt hlt), h3, h4,
          hst]
      | Parking f sp ti =>
        simp only [applyOneRemoval, h1, h2, if_neg (Nat.ne_of_lt hlt), h3, h4,
          hst]
      | Idling f ti =>
        simp only [applyOneRemoval, h1, h2, if_neg (Nat.ne_of_lt hlt), h3, h4,
          hst]

/-- Witness for C4: a two-car queue where the leader at index 0 vanishes at
distance 9; the scan defers removals at ascending indices, and applying the
removal re-synthesizes the `Queued` follower into a crossing state starting at
`9 - 4 - FOLLOWING_DISTANCE = 4`. -/
theorem phase2_removals_spec_witness :
    List.Pairwise (fun a b : Nat × Dist => b.1 < a.1)
      [((1 : Nat), (4 : Dist)), (0, 9)] ∧
    applyOneRemoval
      ⟨fun _ _ _ => some (.VanishAtBorder 0),
        fun _ d => .Crossing ⟨0, 1⟩ ⟨d, 9⟩, fun _ => ⟨[], 0⟩⟩
      [(1, ⟨⟨1, 4, none⟩, ⟨[.lane 0], 0⟩, .Queued, []⟩),
        (2, ⟨⟨2, 4, none⟩, ⟨[.lane 0], 0⟩, .Queued, []⟩)]
      ⟨.lane 0, 100, [1, 2]⟩ 0 9 = some
      ([(2, ⟨⟨2, 4, none⟩, ⟨[.lane 0], 0⟩, .Crossing ⟨0, 1⟩ ⟨4, 9⟩, []⟩)],
        ⟨.lane 0, 100, [2]⟩) :=
  ⟨phase2_removals_spec.1
      ⟨fun _ _ _ => some (.VanishAtBorder 0),
        fun _ d => .Crossing ⟨0, 1⟩ ⟨d, 9⟩, fun _ => ⟨[], 0⟩⟩ 3
      [(1, ⟨⟨1, 4, none⟩, ⟨[.lane 0], 0⟩, .Queued, []⟩),
        (2, ⟨⟨2, 4, none⟩, ⟨[.lane 0], 0⟩, .Queued, []⟩)]
      ⟨[], []⟩ [(1, 9), (2, 4)]
      ⟨[(1, ⟨⟨1, 4, none⟩, ⟨[.lane 0], 0⟩, .Queued, []⟩),
          (2, ⟨⟨2, 4, none⟩, ⟨[.lane 0], 0⟩, .Queued, []⟩)],
        ⟨[], []⟩, [(0, 9), (1, 4)]⟩ rfl,
    (phase2_removals_spec.2
      ⟨fun _ _ _ => some (.VanishAtBorder 0),
        fun _ d => .Crossing ⟨0, 1⟩ ⟨d, 9⟩, fun _ => ⟨[], 0⟩⟩
      [(1, ⟨⟨1, 4, none⟩, ⟨[.lane 0], 0⟩, .Queued, []⟩),
        (2, ⟨⟨2, 4, none⟩, ⟨[.lane 0], 0⟩, .Queued, []⟩)]
      ⟨.lane 0, 100, [1, 2]⟩ 0 9 1 ⟨⟨1, 4, none⟩, ⟨[.lane 0], 0⟩, .Queued, []⟩
      2 ⟨⟨2, 4, none⟩, ⟨[.lane 0], 0⟩, .Queued, []⟩ rfl rfl rfl rfl).1 rfl⟩

/-! ## Claim C5 -/

/-- C5: a Phase-3 hand-off for a queue whose head car is `Queued` and not on
its last step is skipped atomically when the target has no room at its end or
when the target is a turn the intersection refuses: the whole driving state is
returned unchanged, so the head car remains the head of its queue, still
`Queued`, and neither queue's car list is modified. -/
theorem phase3_skip_atomic (ctx : Phase3Ctx) (st : DrivingState)
    (src : Traversable) (fq : Queue) (lid : Nat) (car : Car)
    (goto : Traversable)
    (hq : alookup src st.queues = some fq)
    (hhead : fq.cars.head? = some lid)
    (hcar : alookup lid st.cars = some car)
    (_hqueued : car.state = .Queued)
    (_hnotlast : car.router.last_step = false)
    (hnext : car.router.next = some goto)
    (hdeny : ctx.roomAtEnd goto = false ∨
      (∃ t, goto = .turn t ∧ ctx.maybeStartTurn lid t = false)) :
    phase3HandleOne ctx st src = some st := by
  rcases hdeny with hroom | ⟨t, rfl, hturn⟩
  · simp [phase3HandleOne, hq, hhead, hcar, hnext, hroom]
  · by_cases hroom : ctx.roomAtEnd (.turn t)
    · simp [phase3HandleOne, hq, hhead, hcar, hnext, hroom, hturn]
    · simp [phase3HandleOne, hq, hhead, hcar, hnext, hroom]

/-- Witness for C5: a single `Queued` head car headed into a turn the
intersection denies; the state is untouched. -/
theorem phase3_skip_atomic_witness :
    phase3HandleOne
      ⟨fun _ => true, fun _ _ => false, fun _ d => .Crossing ⟨0, 1⟩ ⟨d, 9⟩,
        fun _ => 100, fun l => l⟩
      ⟨[(1, ⟨⟨1, 4, none⟩, ⟨[.lane 0, .turn 7, .lane 3], 0⟩, .Queued, []⟩)],
        [(.lane 0, ⟨.lane 0, 100, [1]⟩), (.turn 7, ⟨.turn 7, 10, []⟩)]⟩
      (.lane 0) = some
      ⟨[(1, ⟨⟨1, 4, none⟩, ⟨[.lane 0, .turn 7, .lane 3], 0⟩, .Queued, []⟩)],
        [(.lane 0, ⟨.lane 0, 100, [1]⟩), (.turn 7, ⟨.turn 7, 10, []⟩)]⟩ :=
  phase3_skip_atomic
    ⟨fun _ => true, fun _ _ => false, fun _ d => .Crossing ⟨0, 1⟩ ⟨d, 9⟩,
      fun _ => 100, fun l => l⟩
    ⟨[(1, ⟨⟨1, 4, none⟩, ⟨[.lane 0, .turn 7, .lane 3], 0⟩, .Queued, []⟩)],
      [(.lane 0, ⟨.lane 0, 100, [1]⟩), (.turn 7, ⟨.turn 7, 10, []⟩)]⟩
    (.lane 0) ⟨.lane 0, 100, [1]⟩ 1
    ⟨⟨1, 4, none⟩, ⟨[.lane 0, .turn 7, .lane 3], 0⟩, .Queued, []⟩ (.turn 7)
    rfl rfl rfl rfl rfl rfl (Or.inr ⟨7, rfl, rfl⟩)

/-! ## Claim C6 -/

/-- C6: when the Phase-2 scan reaches a `Queued` car on its last step whose
end action resolves to `StartParking(spot)` against the *current* parking
state, then in that same iteration the car's state becomes
`Parking(dist, spot, [t, t + 15s])` and `reserve_spot(spot)` is applied, so
the spot is reserved in the parking state threaded to every car processed
later in the scan (second conjunct: the scan hands exactly the updated state
to the rest of the loop). -/
theorem phase2_start_parking_reserves :
    (∀ (ctx : Phase2Ctx) (time : Time) (st : Phase2State) (idx id : Nat)
        (dist : Dist) (car : Car) (spot : Nat),
        alookup id st.cars = some car →
        car.router.last_step = true →
        car.state = .Queued →
        ctx.maybeHandleEnd id dist st.parking = some (.StartParking spot) →
        phase2HandleCar ctx time st idx id dist = some
          { st with
            cars := ainsert id
              { car with state := .Parking dist spot ⟨time, time + TIME_TO_PARK⟩ }
              st.cars
            parking := st.parking.reserve_spot spot } ∧
        spot ∈ (st.parking.reserve_spot spot).reserved) ∧
    (∀ (ctx : Phase2Ctx) (time : Time) (i : Nat) (st : Phase2State)
        (id : Nat) (dist : Dist) (rest : List (Nat × Dist)),
        phase2ScanFrom ctx time i st ((id, dist) :: rest) =
          match phase2HandleCar ctx time st i id dist with
          | none => none
          | some st' => phase2ScanFrom ctx time (i + 1) st' rest) := by
  constructor
  · intro ctx time st idx id dist car spot hcar hlast hqueued hact
    constructor
    · simp [phase2HandleCar, hcar, hlast, hqueued, hact]
    · simp [ParkingSim.reserve_spot]
  · intro ctx time i st id dist rest
    rfl

/-- Witness for C6: a `Queued` car on its last step resolving to
`StartParking 7` transitions to `Parking` over `[20s, 35s]` and reserves spot
7 at once. -/
theorem phase2_start_parking_reserves_witness :
    phase2HandleCar
      ⟨fun _ _ _ => some (.StartParking 7), fun _ d => .Crossing ⟨0, 1⟩ ⟨d, 9⟩,
        fun _ => ⟨[], 0⟩⟩ 20
      ⟨[(1, ⟨⟨1, 4, none⟩, ⟨[.lane 0], 0⟩, .Queued, []⟩)], ⟨[], []⟩, []⟩ 0 1 9 =
      some
      ⟨[(1, ⟨⟨1, 4, none⟩, ⟨[.lane 0], 0⟩, .Parking 9 7 ⟨20, 35⟩, []⟩)],
        ⟨[7], []⟩, []⟩ ∧
    7 ∈ (ParkingSim.reserve_spot ⟨[], []⟩ 7).reserved :=
  (phase2_start_parking_reserves.1
    ⟨fun _ _ _ => some (.StartParking 7), fun _ d => .Crossing ⟨0, 1⟩ ⟨d, 9⟩,
      fun _ => ⟨[], 0⟩⟩ 20
    ⟨[(1, ⟨⟨1, 4, none⟩, ⟨[.lane 0], 0⟩, .Queued, []⟩)], ⟨[], []⟩, []⟩ 0 1 9
    ⟨⟨1, 4, none⟩, ⟨[.lane 0], 0⟩, .Queued, []⟩ 7 rfl rfl rfl rfl)

/-! ## Claim C7 -/

/-- C7: `start_car_on_lane` returns `false` and changes neither cars nor
queues when some agent is headed toward the first lane's upstream
intersection or when the queue's admission check returns no index; otherwise
it inserts the new car's id at the returned index and records the car with
state `Unparking(start_dist, [time, time + 10s])` when the parameters carry a
parked-car origin and the crossing state from `start_dist` otherwise, and
returns `true`. -/
theorem start_car_on_lane_spec (time : Time) (params : CreateCar)
    (nobodyHeadedTowards : Nat → Bool)
    (getIdxToInsertCar : Dist → Dist → Option Nat)
    (crossingState : Dist → CarState)
    (st : DrivingState) (fl : Nat) (q : Queue)
    (hhead : params.router.head = some (.lane fl))
    (hq : alookup (Traversable.lane fl) st.queues = some q) :
    (nobodyHeadedTowards fl = false →
      start_car_on_lane time params nobodyHeadedTowards getIdxToInsertCar
        crossingState st = some (false, st)) ∧
    (nobodyHeadedTowards fl = true →
      getIdxToInsertCar params.start_dist params.vehicle.length = none →
      start_car_on_lane time params nobodyHeadedTowards getIdxToInsertCar
        crossingState st = some (false, st)) ∧
    (∀ idx, nobodyHeadedTowards fl = true →
      getIdxToInsertCar params.start_dist params.vehicle.length = some idx →
      start_car_on_lane time params nobodyHeadedTowards getIdxToInsertCar
        crossingState st = some (true,
        { st with
          queues := ainsert (Traversable.lane fl)
            { q with cars := q.cars.insertIdx idx params.vehicle.id } st.queues
          cars := ainsert params.vehicle.id
            { vehicle := params.vehicle
              router := params.router
              state :=
                if params.maybeParkedCar then
                  .Unparking params.start_dist ⟨time, time + TIME_TO_UNPARK⟩
                else crossingState params.start_dist
              last_steps := [] } st.cars })) := by
  refine ⟨?_, ?_, ?_⟩
  · intro hno
    simp [start_car_on_lane, hhead, hno]
  · intro hno hidx
    simp [start_car_on_lane, hhead, hno, hq, hidx]
  · intro idx hno hidx
    simp [start_car_on_lane, hhead, hno, hq, hidx]

/-- Witness for C7: admitting a car from a parked spot at index 0 of an empty
lane queue. -/
theorem start_car_on_lane_spec_witness :
    start_car_on_lane 4
      ⟨⟨9, 5, none⟩, 0, ⟨[.lane 2, .lane 3], 0⟩, 30, true⟩
      (fun _ => true) (fun _ _ => some 0) (fun d => .Crossing ⟨4, 6⟩ ⟨d, 80⟩)
      ⟨[], [(.lane 2, ⟨.lane 2, 80, []⟩)]⟩ = some (true,
      ⟨[(9, ⟨⟨9, 5, none⟩, ⟨[.lane 2, .lane 3], 0⟩, .Unparking 30 ⟨4, 14⟩, []⟩)],
        [(.lane 2, ⟨.lane 2, 80, [9]⟩)]⟩) := by
  have h := (start_car_on_lane_spec 4
    ⟨⟨9, 5, none⟩, 0, ⟨[.lane 2, .lane 3], 0⟩, 30, true⟩
    (fun _ => true) (fun _ _ => some 0) (fun d => .Crossing ⟨4, 6⟩ ⟨d, 80⟩)
    ⟨[], [(.lane 2, ⟨.lane 2, 80, []⟩)]⟩ 2 ⟨.lane 2, 80, []⟩
    rfl rfl).2.2 0 rfl rfl
  simpa using h

end AbStreet
